import Mathlib

/-!
Verification development for the slicervm-playground deployment scripts.

Go strings are modelled as lists of characters (`GoStr`); Go functions that
call external services (the Slicer VM orchestrator, crypto/rand, Helm) are
modelled as pure functions over explicit oracles describing the results of
those external calls.  Fallible Go functions returning `(T, error)` are
modelled as `Except GoError T` or as pairs `T × Option GoError`, matching the
shape of each source function's return values.
-/

namespace SlicerSpec

/-- Go strings are modelled as lists of characters. -/
abbrev GoStr := List Char

/-- Embed a Lean string literal into the Go-string model. -/
def gs (s : String) : GoStr := s.toList

/-- A Go error value, modelled by its message string. -/
structure GoError where
  msg : GoStr
deriving DecidableEq, Repr

/-- Shallow embedding of Go `strings.ReplaceAll(s, pat, val)`: scan `s` left to
right, replacing each leftmost non-overlapping occurrence of `pat` by `val`.
All call sites in the repository use non-empty literal placeholder patterns,
so the empty-pattern branch (where Go would interleave `val` between runes)
is never exercised; we return `s` unchanged there. -/
def replaceAll (pat val : GoStr) (s : GoStr) : GoStr :=
  if pat = [] then s
  else
    match s with
    | [] => []
    | c :: rest =>
      if pat.isPrefixOf (c :: rest) then
        val ++ replaceAll pat val ((c :: rest).drop pat.length)
      else
        c :: replaceAll pat val rest
termination_by s.length
decreasing_by
  · simp only [List.length_drop, List.length_cons]
    have : pat ≠ [] := by assumption
    have : 0 < pat.length := List.length_pos.mpr this
    omega
  · simp [Nat.lt_succ_self]

/-- Split `s` at each leftmost non-overlapping occurrence of `pat`; the parts
are the maximal stretches of `s` between the occurrences that
`replaceAll pat val` rewrites.  Used to state what literal whole-string
substitution means. -/
def splitOnPat (pat : GoStr) (s : GoStr) : List GoStr :=
  if pat = [] then [s]
  else
    match s with
    | [] => [[]]
    | c :: rest =>
      if pat.isPrefixOf (c :: rest) then
        [] :: splitOnPat pat ((c :: rest).drop pat.length)
      else
        match splitOnPat pat rest with
        | [] => [[c]]
        | p :: ps => (c :: p) :: ps
termination_by s.length
decreasing_by
  · simp only [List.length_drop, List.length_cons]
    have : pat ≠ [] := by assumption
    have : 0 < pat.length := List.length_pos.mpr this
    omega
  · simp [Nat.lt_succ_self]

/-- The string `t` is `s` with every occurrence of the placeholder `pat`
literally replaced by `val` and all other characters unchanged: both strings
interleave the same in-between parts, with `pat` separating them in `s` and
`val` separating them in `t`, and no part still contains `pat`. -/
def IsLiteralSubst (pat val s t : GoStr) : Prop :=
  ∃ parts : List GoStr, parts ≠ [] ∧
    s = List.intercalate pat parts ∧
    t = List.intercalate val parts ∧
    ∀ p ∈ parts, ¬ pat <:+: p

/-- Sequential application of a list of `(placeholder, value)` substitutions,
each one a literal whole-string substitution. -/
def ChainSubst : List (GoStr × GoStr) → GoStr → GoStr → Prop
  | [], s, t => t = s
  | (pat, val) :: rest, s, t => ∃ u, IsLiteralSubst pat val s u ∧ ChainSubst rest u t

/-- A VM record as returned by the Slicer orchestrator (`sdk.SlicerNode`):
hostname, IP (often CIDR-suffixed), creation timestamp and free-text tags. -/
structure SlicerNode where
  Hostname : GoStr
  IP : GoStr
  CreatedAt : GoStr
  Tags : List GoStr
deriving DecidableEq, Repr

/-- Response of `GetVMLogs` (`sdk.SlicerVMLogsResponse`): the log content. -/
structure VMLogsResponse where
  Content : GoStr
deriving DecidableEq, Repr

/-- Response of `CreateNode` (`sdk.SlicerCreateNodeResponse`). -/
structure SlicerCreateNodeResponse where
  Hostname : GoStr
  IP : GoStr
  CreatedAt : GoStr
deriving DecidableEq, Repr

/-- Request of `CreateNode` (`sdk.SlicerCreateNodeRequest`); fields default to
Go zero values and are filled in by the deployers. -/
structure SlicerCreateNodeRequest where
  RamGB : Int := 0
  CPUs : Int := 0
  Userdata : GoStr := []
  SSHKeys : List GoStr := []
  ImportUser : GoStr := []
  Tags : List GoStr := []
deriving DecidableEq, Repr

/-- A list of VM records; named so that the `List` methods of the deployer
structures can be declared without colliding with the core list type. -/
abbrev NodeList := List SlicerNode

/-- The external Slicer VM-orchestrator client (`sdk.SlicerClient`), modelled
as an oracle giving the outcome of each remote call.  The Go `context.Context`
argument carries no data relevant to the results and is omitted. -/
structure SlicerClient where
  GetHostGroupNodes : GoStr → Except GoError (List SlicerNode)
  DeleteVM : GoStr → GoStr → Except GoError Unit
  GetVMLogs : GoStr → Int → Except GoError VMLogsResponse
  CreateNode : GoStr → SlicerCreateNodeRequest → Except GoError SlicerCreateNodeResponse

/-- magefile.go `hasTag`: linear scan returning whether `tag` occurs in
`tags`. -/
def hasTag : List GoStr → GoStr → Bool
  | [], _ => false
  | t :: rest, tag => if t = tag then true else hasTag rest tag

/-- The `filtered` slice computed by magefile.go `printNodeList` before it
prints: the nodes whose tag list contains `tag`, in input order.  The printing
itself is I/O and carries no further data flow. -/
def filterNodesByTag : List SlicerNode → GoStr → List SlicerNode
  | [], _ => []
  | node :: rest, tag =>
    if hasTag node.Tags tag then node :: filterNodesByTag rest tag
    else filterNodesByTag rest tag

/-- Go `strings.Index(s, "/")`: index of the first `'/'`, or `none` when `s`
contains no `'/'` (Go returns `-1`). -/
def indexOfSlash : GoStr → Option Nat
  | [] => none
  | c :: rest => if c = '/' then some 0 else (indexOfSlash rest).map (· + 1)

/-- The CIDR-suffix stripping applied to VM IPs in magefile.go
(`if idx := strings.Index(ip, "/"); idx != -1 { ip = ip[:idx] }`). -/
def stripCIDRSuffix (s : GoStr) : GoStr :=
  match indexOfSlash s with
  | some idx => s.take idx
  | none => s

/-- Inner loop of `gatewayFromCIDR`: the index of the last `'.'` strictly
before position `i`, scanning downward as the Go code does. -/
def lastDotBefore (s : GoStr) : Nat → Option Nat
  | 0 => none
  | j + 1 => if s[j]? = some '.' then some j else lastDotBefore s j

/-- Outer loop of `gatewayFromCIDR`: scan positions below `i` downward for a
`'/'` that has a `'.'` before it, returning both indices. -/
def findSlashDot (s : GoStr) : Nat → Option (Nat × Nat)
  | 0 => none
  | i + 1 =>
    if s[i]? = some '/' then
      match lastDotBefore s i with
      | some j => some (i, j)
      | none => findSlashDot s i
    else findSlashDot s i

/-- k3s `gatewayFromCIDR`: find the last `'/'`, find the last `'.'` before it,
and splice in `"1"` between them (`cidr[:j+1] + "1" + cidr[i:]`); return the
input unchanged when no such pair exists. -/
def gatewayFromCIDR (s : GoStr) : GoStr :=
  match findSlashDot s s.length with
  | some (i, j) => s.take (j + 1) ++ gs "1" ++ s.drop i
  | none => s

/-- Go `fmt.Sprintf("%d", n)` for an `int` value. -/
def goIntStr (n : Int) : GoStr := (toString n).toList

namespace Postgres

/-- pkg/postgres `DefaultDBName`. -/
def DefaultDBName : GoStr := gs "app"

/-- pkg/postgres `DefaultDBUser`. -/
def DefaultDBUser : GoStr := gs "app"

/-- pkg/postgres `alphanumeric`: characters for password generation. -/
def alphanumeric : GoStr :=
  gs "abcdefghijklmnopqrstuvwxyzABCDEFGHIJKLMNOPQRSTUVWXYZ0123456789"

/-- pkg/postgres `Config`. -/
structure Config where
  HostGroup : GoStr := []
  VCPU : Int := 0
  RAMGB : Int := 0
  StorageSize : GoStr := []
  SSHKeys : List GoStr := []
  GitHubUser : GoStr := []
  Tags : List GoStr := []
  DBName : GoStr := []
  DBUser : GoStr := []
  DBPass : GoStr := []
deriving DecidableEq, Repr

/-- pkg/postgres `Credentials`. -/
structure Credentials where
  DBName : GoStr
  DBUser : GoStr
  DBPass : GoStr
deriving DecidableEq, Repr

/-- pkg/postgres `DeployResponse`: the embedded `SlicerCreateNodeResponse`
plus the generated credentials. -/
structure DeployResponse where
  resp : SlicerCreateNodeResponse
  Credentials : Credentials
deriving DecidableEq, Repr

/-- The error-message wrapping done inside `GeneratePassword`
(`fmt.Errorf("failed to generate random password: %w", err)`). -/
def wrapRandErr (e : GoError) : GoError :=
  ⟨gs "failed to generate random password: " ++ e.msg⟩

/-- Loop body of `GeneratePassword`: positions `i, i+1, ...` for `n` more
characters, drawing each from the `randInt` oracle (one `rand.Int` call per
position, giving either a number below `len(alphanumeric)` or an error).  On
the first oracle error the Go function returns `("", wrapped error)`.  The
`getD` default is unreachable for an oracle respecting `rand.Int`'s bound. -/
def generatePasswordFrom (randInt : Nat → Except GoError Nat) : Nat → Nat → GoStr × Option GoError
  | _, 0 => ([], none)
  | i, n + 1 =>
    match randInt i with
    | .error e => ([], some (wrapRandErr e))
    | .ok num =>
      match generatePasswordFrom randInt (i + 1) n with
      | (_, some e) => ([], some e)
      | (rest, none) => (alphanumeric.getD num 'a' :: rest, none)

/-- pkg/postgres `GeneratePassword`: a random alphanumeric string of the
requested length, or `("", wrapped error)` when the randomness source fails. -/
def GeneratePassword (randInt : Nat → Except GoError Nat) (length : Nat) : GoStr × Option GoError :=
  generatePasswordFrom randInt 0 length

/-- pkg/postgres `generateUserdata`: replace the three credential placeholders
in the embedded userdata.sh template (passed here as `tmpl`). -/
def generateUserdata (tmpl dbName dbUser password : GoStr) : GoStr :=
  replaceAll (gs "\x7b\x7bPOSTGRES_PASSWORD\x7d\x7d") password
    (replaceAll (gs "\x7b\x7bPOSTGRES_USER\x7d\x7d") dbUser
      (replaceAll (gs "\x7b\x7bPOSTGRES_DB\x7d\x7d") dbName tmpl))

/-- pkg/postgres `Deployer`: a Slicer client plus a config. -/
structure Deployer where
  client : SlicerClient
  config : Config

/-- pkg/postgres `Deployer.Deploy`: resolve credentials (generating a
24-character password when `DBPass` is empty, falling back to the default DB
name and user when those are empty), fill the userdata template, send the
`CreateNode` request and return the response together with the credentials.
`randInt` models the crypto/rand source and `tmpl` the embedded template. -/
def Deployer.Deploy (d : Deployer) (randInt : Nat → Except GoError Nat) (tmpl : GoStr) :
    Except GoError DeployResponse :=
  match (if d.config.DBPass = [] then GeneratePassword randInt 24 else (d.config.DBPass, none)) with
  | (_, some e) => .error ⟨gs "failed to generate password: " ++ e.msg⟩
  | (password, none) =>
    let dbName := if d.config.DBName = [] then DefaultDBName else d.config.DBName
    let dbUser := if d.config.DBUser = [] then DefaultDBUser else d.config.DBUser
    let userdata := generateUserdata tmpl dbName dbUser password
    let req : SlicerCreateNodeRequest :=
      { RamGB := d.config.RAMGB
        CPUs := d.config.VCPU
        Userdata := userdata
        SSHKeys := if d.config.SSHKeys.length > 0 then d.config.SSHKeys else []
        ImportUser := if d.config.GitHubUser ≠ [] then d.config.GitHubUser else []
        Tags := if d.config.Tags.length > 0 then d.config.Tags else [] }
    match d.client.CreateNode d.config.HostGroup req with
    | .error e => .error e
    | .ok resp => .ok ⟨resp, ⟨dbName, dbUser, password⟩⟩

/-- pkg/postgres `Deployer.Delete`: `_, err := DeleteVM(...)`; only the error
is returned. -/
def Deployer.Delete (d : Deployer) (hostname : GoStr) : Option GoError :=
  match d.client.DeleteVM d.config.HostGroup hostname with
  | .ok _ => none
  | .error e => some e

/-- pkg/postgres `Deployer.List`: all nodes of the configured host group,
exactly as the client reports them. -/
def Deployer.List (d : Deployer) : Except GoError NodeList :=
  d.client.GetHostGroupNodes d.config.HostGroup

/-- pkg/postgres `Deployer.Logs`: the log content on success, `("", err)` on
failure. -/
def Deployer.Logs (d : Deployer) (hostname : GoStr) (lines : Int) : GoStr × Option GoError :=
  match d.client.GetVMLogs hostname lines with
  | .ok resp => (resp.Content, none)
  | .error e => ([], some e)

end Postgres

namespace Buildkit

/-- pkg/buildkit `Config`. -/
structure Config where
  HostGroup : GoStr := []
  VCPU : Int := 0
  RAMGB : Int := 0
  StorageSize : GoStr := []
  SSHKeys : List GoStr := []
  GitHubUser : GoStr := []
  Tags : List GoStr := []
deriving DecidableEq, Repr

/-- pkg/buildkit `Deployer`. -/
structure Deployer where
  client : SlicerClient
  config : Config

/-- pkg/buildkit `Deployer.Delete`: `_, err := DeleteVM(...)`; only the error
is returned. -/
def Deployer.Delete (d : Deployer) (hostname : GoStr) : Option GoError :=
  match d.client.DeleteVM d.config.HostGroup hostname with
  | .ok _ => none
  | .error e => some e

/-- pkg/buildkit `Deployer.List`: all nodes of the configured host group,
exactly as the client reports them. -/
def Deployer.List (d : Deployer) : Except GoError NodeList :=
  d.client.GetHostGroupNodes d.config.HostGroup

/-- pkg/buildkit `Deployer.Logs`: the log content on success, `("", err)` on
failure. -/
def Deployer.Logs (d : Deployer) (hostname : GoStr) (lines : Int) : GoStr × Option GoError :=
  match d.client.GetVMLogs hostname lines with
  | .ok resp => (resp.Content, none)
  | .error e => ([], some e)

end Buildkit

namespace K3s

/-- pkg/k3s `CPConfig`. -/
structure CPConfig where
  HostGroup : GoStr := []
  VCPU : Int := 0
  RAMGB : Int := 0
  StorageSize : GoStr := []
  SSHKeys : List GoStr := []
  GitHubUser : GoStr := []
  Tags : List GoStr := []
  Count : Int := 0
  CIDR : GoStr := []
deriving DecidableEq, Repr

/-- pkg/k3s `CPDeployer`. -/
structure CPDeployer where
  client : SlicerClient
  config : CPConfig

/-- pkg/k3s `CPDeployer.Delete`: `_, err := DeleteVM(...)`; only the error is
returned. -/
def CPDeployer.Delete (d : CPDeployer) (hostname : GoStr) : Option GoError :=
  match d.client.DeleteVM d.config.HostGroup hostname with
  | .ok _ => none
  | .error e => some e

/-- pkg/k3s `CPDeployer.List`: all nodes of the configured host group, exactly
as the client reports them. -/
def CPDeployer.List (d : CPDeployer) : Except GoError NodeList :=
  d.client.GetHostGroupNodes d.config.HostGroup

/-- pkg/k3s `CPDeployer.Logs`: the log content on success, `("", err)` on
failure. -/
def CPDeployer.Logs (d : CPDeployer) (hostname : GoStr) (lines : Int) : GoStr × Option GoError :=
  match d.client.GetVMLogs hostname lines with
  | .ok resp => (resp.Content, none)
  | .error e => ([], some e)

/-- pkg/k3s `AgentConfig`. -/
structure AgentConfig where
  HostGroup : GoStr := []
  VCPU : Int := 0
  RAMGB : Int := 0
  StorageSize : GoStr := []
  SSHKeys : List GoStr := []
  GitHubUser : GoStr := []
  Tags : List GoStr := []
  CIDR : GoStr := []
  APIPort : Int := 0
  TapPrefix : GoStr := []
  K3sURL : GoStr := []
  K3sToken : GoStr := []
deriving DecidableEq, Repr

/-- pkg/k3s `AgentDeployer`. -/
structure AgentDeployer where
  client : SlicerClient
  config : AgentConfig

/-- pkg/k3s `AgentDeployer.Delete`: `_, err := DeleteVM(...)`; only the error
is returned. -/
def AgentDeployer.Delete (d : AgentDeployer) (hostname : GoStr) : Option GoError :=
  match d.client.DeleteVM d.config.HostGroup hostname with
  | .ok _ => none
  | .error e => some e

/-- pkg/k3s `AgentDeployer.List`: all nodes of the configured host group,
exactly as the client reports them. -/
def AgentDeployer.List (d : AgentDeployer) : Except GoError NodeList :=
  d.client.GetHostGroupNodes d.config.HostGroup

/-- pkg/k3s `AgentDeployer.Logs`: the log content on success, `("", err)` on
failure. -/
def AgentDeployer.Logs (d : AgentDeployer) (hostname : GoStr) (lines : Int) :
    GoStr × Option GoError :=
  match d.client.GetVMLogs hostname lines with
  | .ok resp => (resp.Content, none)
  | .error e => ([], some e)

/-- pkg/k3s `PrepareAgentUserdata`: replace the two K3s credential
placeholders in the embedded userdata_agent.sh script (passed here as
`tmpl`). -/
def PrepareAgentUserdata (tmpl k3sURL k3sToken : GoStr) : GoStr :=
  replaceAll (gs "\x7b\x7bK3S_TOKEN\x7d\x7d") k3sToken
    (replaceAll (gs "\x7b\x7bK3S_URL\x7d\x7d") k3sURL tmpl)

/-- pkg/k3s `GenerateCPYAML`: the `fmt.Sprintf` of the fixed YAML skeleton
with host-group name, storage size, count, vcpu, ram, bridge, tap prefix, the
gateway derived from the CIDR, and the GitHub user spliced in. -/
def GenerateCPYAML (config : CPConfig) (githubUser : GoStr) : GoStr :=
  gs "config:\n  host_groups:\n  - name: " ++ config.HostGroup ++
  gs "\n    storage: image\n    storage_size: " ++ config.StorageSize ++
  gs "\n    count: " ++ goIntStr config.Count ++
  gs "\n    vcpu: " ++ goIntStr config.VCPU ++
  gs "\n    ram_gb: " ++ goIntStr config.RAMGB ++
  gs "\n    network:\n      bridge: br" ++ config.HostGroup ++
  gs "0\n      tap_prefix: " ++ config.HostGroup ++
  gs "tap\n      gateway: " ++ gatewayFromCIDR config.CIDR ++
  gs "\n\n  github_user: " ++ githubUser ++
  gs "\n\n  image: \"ghcr.io/openfaasltd/slicer-systemd:5.10.240-x86_64-latest\"\n\n  hypervisor: firecracker\n\n  api:\n    port: 8080\n    bind_address: \"127.0.0.1\"\n"

end K3s

namespace Gitea

/-- pkg/gitea `Config`. -/
structure Config where
  HostGroup : GoStr := []
  VCPU : Int := 0
  RAMGB : Int := 0
  StorageSize : GoStr := []
  SSHKeys : List GoStr := []
  GitHubUser : GoStr := []
  Tags : List GoStr := []
  DBHost : GoStr := []
  DBPort : Int := 0
  DBName : GoStr := []
  DBUser : GoStr := []
  DBPass : GoStr := []
  S3Endpoint : GoStr := []
  S3AccessKey : GoStr := []
  S3SecretKey : GoStr := []
  S3Bucket : GoStr := []
  S3UseSSL : Bool := false
deriving DecidableEq, Repr

/-- The local `s3UseSSL` string computed inside pkg/gitea `generateUserdata`:
`"false"`, switched to `"true"` when `config.S3UseSSL` is set. -/
def s3UseSSLStr (b : Bool) : GoStr :=
  if b then gs "true" else gs "false"

/-- pkg/gitea `generateUserdata`: replace the database and S3 placeholders in
the embedded userdata.sh template (passed here as `tmpl`). -/
def generateUserdata (tmpl : GoStr) (config : Config) : GoStr :=
  let u := tmpl
  let u := replaceAll (gs "\x7b\x7bDB_HOST\x7d\x7d") config.DBHost u
  let u := replaceAll (gs "\x7b\x7bDB_PORT\x7d\x7d") (goIntStr config.DBPort) u
  let u := replaceAll (gs "\x7b\x7bDB_NAME\x7d\x7d") config.DBName u
  let u := replaceAll (gs "\x7b\x7bDB_USER\x7d\x7d") config.DBUser u
  let u := replaceAll (gs "\x7b\x7bDB_PASS\x7d\x7d") config.DBPass u
  let u := replaceAll (gs "\x7b\x7bS3_ENDPOINT\x7d\x7d") config.S3Endpoint u
  let u := replaceAll (gs "\x7b\x7bS3_ACCESS_KEY\x7d\x7d") config.S3AccessKey u
  let u := replaceAll (gs "\x7b\x7bS3_SECRET_KEY\x7d\x7d") config.S3SecretKey u
  let u := replaceAll (gs "\x7b\x7bS3_BUCKET\x7d\x7d") config.S3Bucket u
  replaceAll (gs "\x7b\x7bS3_USE_SSL\x7d\x7d") (s3UseSSLStr config.S3UseSSL) u

/-- pkg/gitea `Deployer`. -/
structure Deployer where
  client : SlicerClient
  config : Config

/-- pkg/gitea `Deployer.Delete`: `_, err := DeleteVM(...)`; only the error is
returned. -/
def Deployer.Delete (d : Deployer) (hostname : GoStr) : Option GoError :=
  match d.client.DeleteVM d.config.HostGroup hostname with
  | .ok _ => none
  | .error e => some e

/-- pkg/gitea `Deployer.List`: all nodes of the configured host group,
exactly as the client reports them. -/
def Deployer.List (d : Deployer) : Except GoError NodeList :=
  d.client.GetHostGroupNodes d.config.HostGroup

/-- pkg/gitea `Deployer.Logs`: the log content on success, `("", err)` on
failure. -/
def Deployer.Logs (d : Deployer) (hostname : GoStr) (lines : Int) : GoStr × Option GoError :=
  match d.client.GetVMLogs hostname lines with
  | .ok resp => (resp.Content, none)
  | .error e => ([], some e)

end Gitea

namespace CrossplaneRunner

/-- pkg/crossplane/runner `VMParameters`: the configurable fields of a Slicer
VM managed resource. -/
structure VMParameters where
  HostGroup : GoStr := []
  CPUs : Int := 0
  RAMGB : Int := 0
  Userdata : GoStr := []
  SSHKeys : List GoStr := []
  ImportUser : GoStr := []
  Tags : List GoStr := []
deriving DecidableEq, Repr

/-- pkg/crossplane/runner `VMSpec`. -/
structure VMSpec where
  ForProvider : VMParameters
deriving DecidableEq, Repr

/-- pkg/crossplane/runner `VMObservation`. -/
structure VMObservation where
  Hostname : GoStr := []
  IP : GoStr := []
  State : GoStr := []
  CreatedAt : GoStr := []
deriving DecidableEq, Repr

/-- pkg/crossplane/runner `VMStatus`. -/
structure VMStatus where
  AtProvider : VMObservation := {}
deriving DecidableEq, Repr

/-- pkg/crossplane/runner `VM`: a managed resource for a Slicer VM. -/
structure VM where
  Spec : VMSpec
  Status : VMStatus := {}
deriving DecidableEq, Repr

/-- pkg/crossplane/runner `Config` (Kubernetes and VM configuration). -/
structure Config where
  Kubeconfig : GoStr := []
  Namespace : GoStr := []
  ProviderConfig : GoStr := []
  Name : GoStr := []
  HostGroup : GoStr := []
  VCPU : Int := 0
  RAMGB : Int := 0
  SSHKeys : List GoStr := []
  GitHubUser : GoStr := []
  Tags : List GoStr := []
  GiteaURL : GoStr := []
  RunnerToken : GoStr := []
  RunnerName : GoStr := []
  Labels : GoStr := []
  Version : GoStr := []
deriving DecidableEq, Repr

/-- pkg/crossplane/runner package-local `hasTag`: the same linear
string-equality scan as the magefile's. -/
def hasTag : List GoStr → GoStr → Bool
  | [], _ => false
  | t :: rest, tag => if t = tag then true else hasTag rest tag

/-- The Kubernetes dynamic client used by the crossplane runner deployer,
modelled as an oracle: `listVMs namespace labelSelector` is the outcome of the
`List` call on the VM resource, each returned item paired with the outcome of
its `unstructuredToVM` conversion (`none` = conversion error, skipped by the
loop). -/
structure DynamicClient where
  listVMs : GoStr → GoStr → Except GoError (List (Option VM))

/-- pkg/crossplane/runner `Deployer`. -/
structure Deployer where
  client : DynamicClient
  config : Config

/-- The item loop of pkg/crossplane/runner `Deployer.List`: skip items whose
conversion failed and keep exactly the VMs carrying the "runner" tag. -/
def collectRunnerVMs : List (Option VM) → List VM
  | [] => []
  | none :: rest => collectRunnerVMs rest
  | some vm :: rest =>
    if hasTag vm.Spec.ForProvider.Tags (gs "runner") then vm :: collectRunnerVMs rest
    else collectRunnerVMs rest

/-- pkg/crossplane/runner `Deployer.List`: list the VM resources in the
configured namespace with the claim-name label selector, then filter by the
"runner" tag inside the package. -/
def Deployer.List (d : Deployer) : Except GoError (List VM) :=
  match d.client.listVMs d.config.Namespace (gs "crossplane.io/claim-name") with
  | .error e => .error ⟨gs "failed to list VMs: " ++ e.msg⟩
  | .ok items => .ok (collectRunnerVMs items)

end CrossplaneRunner

/-- Go `fmt.Errorf("<pre>%w", err)`: wrap an error with a message prefix. -/
def wrapErr (pre : String) (e : GoError) : GoError :=
  ⟨gs pre ++ e.msg⟩

/-- The externally visible Helm calls a provisioner install makes, in the
order it makes them. -/
inductive HelmEvent where
  | repoAdd
  | history
  | locateChart
  | loadChart
  | upgradeRun
  | installRun
deriving DecidableEq, Repr

/-- A Helm release record, as returned by the release-history lookup. -/
structure Release where
  name : GoStr
deriving DecidableEq, Repr

/-- A loaded Helm chart. -/
structure HelmChart where
  path : GoStr
deriving DecidableEq, Repr

/-- Oracle for the external Helm engine: the outcome of each call an install
operation can make.  `hasRepo` is the result of `f.Has(RepoName)` on the
loaded (or freshly created) repo file. -/
structure HelmWorld where
  newChartRepo : Except GoError Unit
  downloadIndex : Except GoError Unit
  hasRepo : Bool
  writeRepoFile : Except GoError Unit
  initActionConfig : Except GoError Unit
  historyRun : Except GoError (List Release)
  locateChart : Except GoError GoStr
  loadChart : Except GoError HelmChart
  upgradeRun : Except GoError Unit
  installRun : Except GoError Unit

/-- The `releaseExists := err == nil && len(releases) > 0` computation shared
by both install operations. -/
def releaseExists (w : HelmWorld) : Bool :=
  match w.historyRun with
  | .ok releases => decide (releases.length > 0)
  | .error _ => false

/-- All steps before the upgrade-or-install decision succeed: chart repository
created, index downloaded, repo file written when the repo was missing, action
config initialized, chart located and loaded. -/
def helmPreOk (w : HelmWorld) : Bool :=
  (match w.newChartRepo with | .ok _ => true | .error _ => false) &&
  (match w.downloadIndex with | .ok _ => true | .error _ => false) &&
  (w.hasRepo || (match w.writeRepoFile with | .ok _ => true | .error _ => false)) &&
  (match w.initActionConfig with | .ok _ => true | .error _ => false) &&
  (match w.locateChart with | .ok _ => true | .error _ => false) &&
  (match w.loadChart with | .ok _ => true | .error _ => false)

namespace CertManager

/-- pkg/certmanager `Provisioner` (only its kubeconfig matters here). -/
structure Provisioner where
  kubeconfig : GoStr

/-- pkg/certmanager `Config` (Helm chart values). -/
structure Config where
  InstallCRDs : Bool := false
  ReplicaCount : Int := 0
  EnablePrometheus : Bool := false
deriving DecidableEq, Repr

/-- pkg/certmanager `Provisioner.Install`: add the jetstack repo, look up the
release history, locate and load the chart, then upgrade when a release
already exists and install freshly otherwise.  Returns the sequence of Helm
calls performed and the error outcome; the chart values built from `config`
do not influence the control flow. -/
def Provisioner.Install (_p : Provisioner) (_config : Config) (w : HelmWorld) :
    List HelmEvent × Option GoError :=
  match w.newChartRepo with
  | .error e => ([], some (wrapErr "failed to create chart repository: " e))
  | .ok _ =>
  match w.downloadIndex with
  | .error e => ([.repoAdd], some (wrapErr "failed to download repo index: " e))
  | .ok _ =>
  match (if w.hasRepo then Except.ok () else w.writeRepoFile) with
  | .error e => ([.repoAdd], some (wrapErr "failed to write repo file: " e))
  | .ok _ =>
  match w.initActionConfig with
  | .error e => ([.repoAdd], some (wrapErr "failed to initialize helm action config: " e))
  | .ok _ =>
  match w.locateChart with
  | .error e => ([.repoAdd, .history, .locateChart], some (wrapErr "failed to locate chart: " e))
  | .ok _ =>
  match w.loadChart with
  | .error e =>
    ([.repoAdd, .history, .locateChart, .loadChart], some (wrapErr "failed to load chart: " e))
  | .ok _ =>
  if releaseExists w then
    match w.upgradeRun with
    | .error e =>
      ([.repoAdd, .history, .locateChart, .loadChart, .upgradeRun],
        some (wrapErr "failed to upgrade cert-manager: " e))
    | .ok _ => ([.repoAdd, .history, .locateChart, .loadChart, .upgradeRun], none)
  else
    match w.installRun with
    | .error e =>
      ([.repoAdd, .history, .locateChart, .loadChart, .installRun],
        some (wrapErr "failed to install cert-manager: " e))
    | .ok _ => ([.repoAdd, .history, .locateChart, .loadChart, .installRun], none)

end CertManager

namespace K3s

/-- pkg/k3s `HelmConfig` (autoscaler chart values). -/
structure HelmConfig where
  ImageRepository : GoStr := []
  ImageTag : GoStr := []
  ScaleDownEnabled : Bool := false
  ScaleDownDelayAfterAdd : GoStr := []
  ScaleDownUnneededTime : GoStr := []
  Expander : GoStr := []
  LogVerbosity : Int := 0
deriving DecidableEq, Repr

/-- pkg/k3s `Provisioner` (only its kubeconfig matters here). -/
structure Provisioner where
  kubeconfig : GoStr

/-- pkg/k3s `Provisioner.InstallAutoscaler`: add the autoscaler repo, look up
the release history, locate and load the chart, then upgrade when a release
already exists and install freshly otherwise.  Returns the sequence of Helm
calls performed and the error outcome; the chart values built from
`helmConfig` do not influence the control flow. -/
def Provisioner.InstallAutoscaler (_p : Provisioner) (_helmConfig : HelmConfig) (w : HelmWorld) :
    List HelmEvent × Option GoError :=
  match w.newChartRepo with
  | .error e => ([], some (wrapErr "failed to create chart repository: " e))
  | .ok _ =>
  match w.downloadIndex with
  | .error e => ([.repoAdd], some (wrapErr "failed to download repo index: " e))
  | .ok _ =>
  match (if w.hasRepo then Except.ok () else w.writeRepoFile) with
  | .error e => ([.repoAdd], some (wrapErr "failed to write repo file: " e))
  | .ok _ =>
  match w.initActionConfig with
  | .error e => ([.repoAdd], some (wrapErr "failed to initialize helm action config: " e))
  | .ok _ =>
  match w.locateChart with
  | .error e => ([.repoAdd, .history, .locateChart], some (wrapErr "failed to locate chart: " e))
  | .ok _ =>
  match w.loadChart with
  | .error e =>
    ([.repoAdd, .history, .locateChart, .loadChart], some (wrapErr "failed to load chart: " e))
  | .ok _ =>
  if releaseExists w then
    match w.upgradeRun with
    | .error e =>
      ([.repoAdd, .history, .locateChart, .loadChart, .upgradeRun],
        some (wrapErr "failed to upgrade autoscaler: " e))
    | .ok _ => ([.repoAdd, .history, .locateChart, .loadChart, .upgradeRun], none)
  else
    match w.installRun with
    | .error e =>
      ([.repoAdd, .history, .locateChart, .loadChart, .installRun],
        some (wrapErr "failed to install autoscaler: " e))
    | .ok _ => ([.repoAdd, .history, .locateChart, .loadChart, .installRun], none)

end K3s

/-! ## Lemmas about the substitution machinery -/

theorem intercalate_one (sep x : GoStr) : List.intercalate sep [x] = x := by
  simp [List.intercalate]

theorem intercalate_cons₂ (sep x y : GoStr) (l : List GoStr) :
    List.intercalate sep (x :: y :: l) = x ++ sep ++ List.intercalate sep (y :: l) := by
  simp [List.intercalate, List.flatten]

theorem intercalate_cons_head (sep : GoStr) (c : Char) (p : GoStr) (ps : List GoStr) :
    List.intercalate sep ((c :: p) :: ps) = c :: List.intercalate sep (p :: ps) := by
  cases ps with
  | nil => rw [intercalate_one, intercalate_one]
  | cons q qs => rw [intercalate_cons₂, intercalate_cons₂]; simp

theorem replaceAll_nil (pat val : GoStr) : replaceAll pat val [] = [] := by
  rw [replaceAll]
  split <;> rfl

theorem replaceAll_cons_pos (pat val : GoStr) (c : Char) (rest : GoStr) (hp : pat ≠ [])
    (h : pat.isPrefixOf (c :: rest) = true) :
    replaceAll pat val (c :: rest) =
      val ++ replaceAll pat val ((c :: rest).drop pat.length) := by
  rw [replaceAll]
  simp [hp, h]

theorem replaceAll_cons_neg (pat val : GoStr) (c : Char) (rest : GoStr) (hp : pat ≠ [])
    (h : ¬ pat.isPrefixOf (c :: rest) = true) :
    replaceAll pat val (c :: rest) = c :: replaceAll pat val rest := by
  rw [replaceAll]
  simp [hp, h]

theorem splitOnPat_nil (pat : GoStr) : splitOnPat pat [] = [[]] := by
  rw [splitOnPat]
  split <;> rfl

theorem splitOnPat_cons_pos (pat : GoStr) (c : Char) (rest : GoStr) (hp : pat ≠ [])
    (h : pat.isPrefixOf (c :: rest) = true) :
    splitOnPat pat (c :: rest) = [] :: splitOnPat pat ((c :: rest).drop pat.length) := by
  rw [splitOnPat]
  simp [hp, h]

theorem splitOnPat_ne_nil (pat s : GoStr) : splitOnPat pat s ≠ [] := by
  rw [splitOnPat.eq_def]
  split
  · simp
  · split
    · simp
    · split
      · simp
      · split <;> simp

theorem splitOnPat_cons_neg (pat : GoStr) (c : Char) (rest : GoStr) (hp : pat ≠ [])
    (h : ¬ pat.isPrefixOf (c :: rest) = true) :
    splitOnPat pat (c :: rest) =
      (c :: (splitOnPat pat rest).headD []) :: (splitOnPat pat rest).tail := by
  rw [splitOnPat]
  simp only [hp, if_false, h]
  rcases hsp : splitOnPat pat rest with - | ⟨p, ps⟩
  · exact absurd hsp (splitOnPat_ne_nil pat rest)
  · simp

theorem prefix_append_drop {pat s : GoStr} (h : pat.isPrefixOf s = true) :
    pat ++ s.drop pat.length = s := by
  have hp : pat <+: s := List.isPrefixOf_iff_prefix.mp h
  have ht : pat = s.take pat.length := List.prefix_iff_eq_take.mp hp
  conv_rhs => rw [← List.take_append_drop pat.length s]
  rw [← ht]

theorem drop_length_lt {pat : GoStr} (c : Char) (rest : GoStr) (hp : pat ≠ []) :
    ((c :: rest).drop pat.length).length ≤ rest.length := by
  have : 0 < pat.length := List.length_pos.mpr hp
  simp only [List.length_drop, List.length_cons]
  omega

theorem splitOnPat_reconstruct (pat : GoStr) (hp : pat ≠ []) (s : GoStr) :
    List.intercalate pat (splitOnPat pat s) = s := by
  have H : ∀ n (s : GoStr), s.length ≤ n → List.intercalate pat (splitOnPat pat s) = s := by
    intro n
    induction n with
    | zero =>
      intro s hs
      have : s = [] := List.length_eq_zero.mp (Nat.le_zero.mp hs)
      subst this
      rw [splitOnPat_nil, intercalate_one]
    | succ n ih =>
      intro s hs
      match s with
      | [] => rw [splitOnPat_nil, intercalate_one]
      | c :: rest =>
        by_cases h : pat.isPrefixOf (c :: rest) = true
        · rw [splitOnPat_cons_pos pat c rest hp h]
          rcases hsp : splitOnPat pat ((c :: rest).drop pat.length) with - | ⟨q, qs⟩
          · exact absurd hsp (splitOnPat_ne_nil _ _)
          · have hlen : ((c :: rest).drop pat.length).length ≤ n := by
              have := drop_length_lt c rest hp
              have : rest.length ≤ n := by simpa using hs
              omega
            have hrec := ih ((c :: rest).drop pat.length) hlen
            rw [hsp] at hrec
            rw [intercalate_cons₂]
            simp only [List.nil_append]
            rw [hrec]
            exact prefix_append_drop h
        · rw [splitOnPat_cons_neg pat c rest hp h]
          rcases hsp : splitOnPat pat rest with - | ⟨p, ps⟩
          · exact absurd hsp (splitOnPat_ne_nil _ _)
          · have hrec := ih rest (by simpa using hs)
            rw [hsp] at hrec
            simp only [List.headD_cons, List.tail_cons]
            rw [intercalate_cons_head, hrec]
  exact H s.length s le_rfl

theorem replaceAll_eq_intercalate (pat val : GoStr) (hp : pat ≠ []) (s : GoStr) :
    replaceAll pat val s = List.intercalate val (splitOnPat pat s) := by
  have H : ∀ n (s : GoStr), s.length ≤ n →
      replaceAll pat val s = List.intercalate val (splitOnPat pat s) := by
    intro n
    induction n with
    | zero =>
      intro s hs
      have : s = [] := List.length_eq_zero.mp (Nat.le_zero.mp hs)
      subst this
      rw [splitOnPat_nil, intercalate_one, replaceAll_nil]
    | succ n ih =>
      intro s hs
      match s with
      | [] => rw [splitOnPat_nil, intercalate_one, replaceAll_nil]
      | c :: rest =>
        by_cases h : pat.isPrefixOf (c :: rest) = true
        · rw [splitOnPat_cons_pos pat c rest hp h, replaceAll_cons_pos pat val c rest hp h]
          rcases hsp : splitOnPat pat ((c :: rest).drop pat.length) with - | ⟨q, qs⟩
          · exact absurd hsp (splitOnPat_ne_nil _ _)
          · have hlen : ((c :: rest).drop pat.length).length ≤ n := by
              have := drop_length_lt c rest hp
              have : rest.length ≤ n := by simpa using hs
              omega
            have hrec := ih ((c :: rest).drop pat.length) hlen
            rw [hsp] at hrec
            rw [intercalate_cons₂]
            simp only [List.nil_append]
            rw [hrec]
        · rw [splitOnPat_cons_neg pat c rest hp h, replaceAll_cons_neg pat val c rest hp h]
          rcases hsp : splitOnPat pat rest with - | ⟨p, ps⟩
          · exact absurd hsp (splitOnPat_ne_nil _ _)
          · have hrec := ih rest (by simpa using hs)
            rw [hsp] at hrec
            simp only [List.headD_cons, List.tail_cons]
            rw [intercalate_cons_head, hrec]
  exact H s.length s le_rfl

theorem splitOnPat_head_isPrefix (pat : GoStr) (hp : pat ≠ []) (s : GoStr) :
    (splitOnPat pat s).headD [] <+: s := by
  have H : ∀ n (s : GoStr), s.length ≤ n → (splitOnPat pat s).headD [] <+: s := by
    intro n
    induction n with
    | zero =>
      intro s hs
      have : s = [] := List.length_eq_zero.mp (Nat.le_zero.mp hs)
      subst this
      rw [splitOnPat_nil]
      simp
    | succ n ih =>
      intro s hs
      match s with
      | [] => rw [splitOnPat_nil]; simp
      | c :: rest =>
        by_cases h : pat.isPrefixOf (c :: rest) = true
        · rw [splitOnPat_cons_pos pat c rest hp h]
          simp
        · rw [splitOnPat_cons_neg pat c rest hp h]
          simp only [List.headD_cons]
          exact List.cons_prefix_cons.mpr ⟨rfl, ih rest (by simpa using hs)⟩
  exact H s.length s le_rfl

theorem splitOnPat_not_infix (pat : GoStr) (hp : pat ≠ []) (s : GoStr) :
    ∀ p ∈ splitOnPat pat s, ¬ pat <:+: p := by
  have H : ∀ n (s : GoStr), s.length ≤ n → ∀ p ∈ splitOnPat pat s, ¬ pat <:+: p := by
    intro n
    induction n with
    | zero =>
      intro s hs
      have : s = [] := List.length_eq_zero.mp (Nat.le_zero.mp hs)
      subst this
      rw [splitOnPat_nil]
      intro p hpmem hinf
      simp only [List.mem_singleton] at hpmem
      subst hpmem
      exact hp (List.eq_nil_of_infix_nil hinf)
    | succ n ih =>
      intro s hs
      match s with
      | [] =>
        rw [splitOnPat_nil]
        intro p hpmem hinf
        simp only [List.mem_singleton] at hpmem
        subst hpmem
        exact hp (List.eq_nil_of_infix_nil hinf)
      | c :: rest =>
        by_cases h : pat.isPrefixOf (c :: rest) = true
        · rw [splitOnPat_cons_pos pat c rest hp h]
          intro p hpmem hinf
          rcases List.mem_cons.mp hpmem with rfl | hpmem
          · exact hp (List.eq_nil_of_infix_nil hinf)
          · have hlen : ((c :: rest).drop pat.length).length ≤ n := by
              have := drop_length_lt c rest hp
              have : rest.length ≤ n := by simpa using hs
              omega
            exact ih ((c :: rest).drop pat.length) hlen p hpmem hinf
        · rw [splitOnPat_cons_neg pat c rest hp h]
          intro p hpmem hinf
          have hrest : rest.length ≤ n := by simpa using hs
          rcases List.mem_cons.mp hpmem with rfl | hpmem
          · rcases hinf with ⟨u, t, hut⟩
            match u, hut with
            | [], hut =>
              have hpre : pat <+: c :: (splitOnPat pat rest).headD [] := ⟨t, by simpa using hut⟩
              have hh : (splitOnPat pat rest).headD [] <+: rest :=
                splitOnPat_head_isPrefix pat hp rest
              have : pat <+: c :: rest := hpre.trans (List.cons_prefix_cons.mpr ⟨rfl, hh⟩)
              exact h (List.isPrefixOf_iff_prefix.mpr this)
            | a :: u, hut =>
              simp only [List.cons_append, List.cons.injEq] at hut
              have hmemhead : (splitOnPat pat rest).headD [] ∈ splitOnPat pat rest := by
                rcases hsp : splitOnPat pat rest with - | ⟨q, qs⟩
                · exact absurd hsp (splitOnPat_ne_nil _ _)
                · simp
              exact ih rest hrest _ hmemhead ⟨u, t, hut.2⟩
          · have : p ∈ splitOnPat pat rest := by
              rcases hsp : splitOnPat pat rest with - | ⟨q, qs⟩
              · exact absurd hsp (splitOnPat_ne_nil _ _)
              · rw [hsp] at hpmem
                simp only [List.tail_cons] at hpmem
                simp [hpmem]
            exact ih rest hrest p this hinf
  exact H s.length s le_rfl

/-- Every call of Go `strings.ReplaceAll` with a non-empty pattern is a
literal whole-string substitution. -/
theorem replaceAll_isLiteralSubst (pat val s : GoStr) (hp : pat ≠ []) :
    IsLiteralSubst pat val s (replaceAll pat val s) :=
  ⟨splitOnPat pat s, splitOnPat_ne_nil pat s,
    (splitOnPat_reconstruct pat hp s).symm,
    replaceAll_eq_intercalate pat val hp s,
    splitOnPat_not_infix pat hp s⟩

/-- C1: Userdata templating is literal whole-string placeholder substitution:
for every choice of values, the templater returns the template with every
occurrence of each placeholder replaced by the corresponding value and all
other characters unchanged — postgres `generateUserdata` substitutes
POSTGRES_DB, POSTGRES_USER and POSTGRES_PASSWORD in that order, k3s
`PrepareAgentUserdata` substitutes K3S_URL and K3S_TOKEN, and gitea
`generateUserdata` substitutes its ten database and S3 placeholders;
substitution is literal (no escaping, all occurrences replaced). -/
theorem userdata_templating_literal_subst
    (tmpl dbName dbUser password k3sURL k3sToken : GoStr) (cfg : Gitea.Config) :
    ChainSubst
      [(gs "\x7b\x7bPOSTGRES_DB\x7d\x7d", dbName),
       (gs "\x7b\x7bPOSTGRES_USER\x7d\x7d", dbUser),
       (gs "\x7b\x7bPOSTGRES_PASSWORD\x7d\x7d", password)]
      tmpl (Postgres.generateUserdata tmpl dbName dbUser password) ∧
    ChainSubst
      [(gs "\x7b\x7bK3S_URL\x7d\x7d", k3sURL),
       (gs "\x7b\x7bK3S_TOKEN\x7d\x7d", k3sToken)]
      tmpl (K3s.PrepareAgentUserdata tmpl k3sURL k3sToken) ∧
    ChainSubst
      [(gs "\x7b\x7bDB_HOST\x7d\x7d", cfg.DBHost),
       (gs "\x7b\x7bDB_PORT\x7d\x7d", goIntStr cfg.DBPort),
       (gs "\x7b\x7bDB_NAME\x7d\x7d", cfg.DBName),
       (gs "\x7b\x7bDB_USER\x7d\x7d", cfg.DBUser),
       (gs "\x7b\x7bDB_PASS\x7d\x7d", cfg.DBPass),
       (gs "\x7b\x7bS3_ENDPOINT\x7d\x7d", cfg.S3Endpoint),
       (gs "\x7b\x7bS3_ACCESS_KEY\x7d\x7d", cfg.S3AccessKey),
       (gs "\x7b\x7bS3_SECRET_KEY\x7d\x7d", cfg.S3SecretKey),
       (gs "\x7b\x7bS3_BUCKET\x7d\x7d", cfg.S3Bucket),
       (gs "\x7b\x7bS3_USE_SSL\x7d\x7d", Gitea.s3UseSSLStr cfg.S3UseSSL)]
      tmpl (Gitea.generateUserdata tmpl cfg) := by
  refine ⟨?_, ?_, ?_⟩
  · exact ⟨_, replaceAll_isLiteralSubst _ _ _ (by decide),
      _, replaceAll_isLiteralSubst _ _ _ (by decide),
      _, replaceAll_isLiteralSubst _ _ _ (by decide), rfl⟩
  · exact ⟨_, replaceAll_isLiteralSubst _ _ _ (by decide),
      _, replaceAll_isLiteralSubst _ _ _ (by decide), rfl⟩
  · exact ⟨_, replaceAll_isLiteralSubst _ _ _ (by decide),
      _, replaceAll_isLiteralSubst _ _ _ (by decide),
      _, replaceAll_isLiteralSubst _ _ _ (by decide),
      _, replaceAll_isLiteralSubst _ _ _ (by decide),
      _, replaceAll_isLiteralSubst _ _ _ (by decide),
      _, replaceAll_isLiteralSubst _ _ _ (by decide),
      _, replaceAll_isLiteralSubst _ _ _ (by decide),
      _, replaceAll_isLiteralSubst _ _ _ (by decide),
      _, replaceAll_isLiteralSubst _ _ _ (by decide),
      _, replaceAll_isLiteralSubst _ _ _ (by decide), rfl⟩

/-! ## Lemmas about CIDR-suffix stripping -/

theorem stripCIDRSuffix_nil : stripCIDRSuffix [] = [] := rfl

theorem stripCIDRSuffix_cons_slash (rest : GoStr) : stripCIDRSuffix ('/' :: rest) = [] := rfl

theorem stripCIDRSuffix_cons (c : Char) (rest : GoStr) (h : c ≠ '/') :
    stripCIDRSuffix (c :: rest) = c :: stripCIDRSuffix rest := by
  rcases hio : indexOfSlash rest with - | i <;>
    simp [stripCIDRSuffix, indexOfSlash, h, hio]

theorem stripCIDRSuffix_not_mem (s : GoStr) : '/' ∉ stripCIDRSuffix s := by
  induction s with
  | nil => rw [stripCIDRSuffix_nil]; simp
  | cons c rest ih =>
    by_cases h : c = '/'
    · subst h
      rw [stripCIDRSuffix_cons_slash]
      simp
    · rw [stripCIDRSuffix_cons c rest h]
      intro hmem
      rcases List.mem_cons.mp hmem with heq | hmem
      · exact h heq.symm
      · exact ih hmem

theorem stripCIDRSuffix_of_not_mem (s : GoStr) (h : '/' ∉ s) : stripCIDRSuffix s = s := by
  induction s with
  | nil => rfl
  | cons c rest ih =>
    have hc : c ≠ '/' := fun hc => h (hc ▸ List.mem_cons_self c rest)
    rw [stripCIDRSuffix_cons c rest hc, ih (fun hm => h (List.mem_cons_of_mem c hm))]

theorem stripCIDRSuffix_isPrefix (s : GoStr) : stripCIDRSuffix s <+: s := by
  induction s with
  | nil => exact List.nil_prefix
  | cons c rest ih =>
    by_cases h : c = '/'
    · subst h
      rw [stripCIDRSuffix_cons_slash]
      exact List.nil_prefix
    · rw [stripCIDRSuffix_cons c rest h]
      exact List.cons_prefix_cons.mpr ⟨rfl, ih⟩

/-- C9: the CIDR-suffix stripping applied to VM IPs always yields a string
containing no slash, returns any string without a slash unchanged, is
idempotent, and its result is a prefix of the original IP string. -/
theorem stripCIDRSuffix_spec :
    (∀ s : GoStr, '/' ∉ stripCIDRSuffix s) ∧
    (∀ s : GoStr, '/' ∉ s → stripCIDRSuffix s = s) ∧
    (∀ s : GoStr, stripCIDRSuffix (stripCIDRSuffix s) = stripCIDRSuffix s) ∧
    (∀ s : GoStr, stripCIDRSuffix s <+: s) :=
  ⟨stripCIDRSuffix_not_mem, stripCIDRSuffix_of_not_mem,
    fun s => stripCIDRSuffix_of_not_mem _ (stripCIDRSuffix_not_mem s),
    stripCIDRSuffix_isPrefix⟩

/-- Witness for C9 at a concrete IP without a CIDR suffix. -/
theorem stripCIDRSuffix_spec_witness :
    stripCIDRSuffix (gs "192.168.137.7") = gs "192.168.137.7" :=
  stripCIDRSuffix_spec.2.1 (gs "192.168.137.7") (by decide)

/-! ## Lemmas about tag filtering -/

theorem hasTag_iff_mem (tags : List GoStr) (tag : GoStr) : hasTag tags tag = true ↔ tag ∈ tags := by
  induction tags with
  | nil => simp [hasTag]
  | cons t rest ih =>
    by_cases h : t = tag
    · subst h
      simp [hasTag]
    · rw [hasTag]
      simp only [h, if_false, ih, List.mem_cons]
      constructor
      · exact Or.inr
      · rintro (heq | hm)
        · exact absurd heq.symm h
        · exact hm

theorem filterNodesByTag_eq_filter (nodes : List SlicerNode) (tag : GoStr) :
    filterNodesByTag nodes tag = nodes.filter (fun n => hasTag n.Tags tag) := by
  induction nodes with
  | nil => rfl
  | cons n rest ih =>
    by_cases h : hasTag n.Tags tag <;>
      simp [filterNodesByTag, List.filter_cons, h, ih]

/-- C3: tag matching is a linear string-equality scan — `hasTag tags tag`
returns true exactly when some element of `tags` equals `tag` — and
`printNodeList` selects exactly the nodes whose tag list contains the given
tag, in input order (its filtered slice is the order-preserving filter of the
input list and a sublist of it). -/
theorem hasTag_printNodeList_spec :
    (∀ (tags : List GoStr) (tag : GoStr), hasTag tags tag = true ↔ tag ∈ tags) ∧
    (∀ (nodes : List SlicerNode) (tag : GoStr),
        filterNodesByTag nodes tag = nodes.filter (fun n => hasTag n.Tags tag)) ∧
    (∀ (nodes : List SlicerNode) (tag : GoStr), List.Sublist (filterNodesByTag nodes tag) nodes) ∧
    (∀ (nodes : List SlicerNode) (tag : GoStr) (n : SlicerNode),
        n ∈ filterNodesByTag nodes tag ↔ n ∈ nodes ∧ tag ∈ n.Tags) := by
  refine ⟨hasTag_iff_mem, filterNodesByTag_eq_filter, ?_, ?_⟩
  · intro nodes tag
    rw [filterNodesByTag_eq_filter]
    exact List.filter_sublist nodes
  · intro nodes tag n
    rw [filterNodesByTag_eq_filter]
    simp [List.mem_filter, hasTag_iff_mem]

/-- C10: noninterference of gitea userdata generation — two configs agreeing
on the ten database and S3 fields produce identical userdata, whatever their
other fields (host group, sizing, SSH keys, GitHub user, tags) are; and the
S3UseSSL flag is rendered exactly as the string "true" or "false". -/
theorem gitea_userdata_noninterference
    (tmpl : GoStr) (c1 c2 : Gitea.Config)
    (hHost : c1.DBHost = c2.DBHost) (hPort : c1.DBPort = c2.DBPort)
    (hName : c1.DBName = c2.DBName) (hUser : c1.DBUser = c2.DBUser)
    (hPass : c1.DBPass = c2.DBPass) (hEp : c1.S3Endpoint = c2.S3Endpoint)
    (hAk : c1.S3AccessKey = c2.S3AccessKey) (hSk : c1.S3SecretKey = c2.S3SecretKey)
    (hBkt : c1.S3Bucket = c2.S3Bucket) (hSSL : c1.S3UseSSL = c2.S3UseSSL) :
    Gitea.generateUserdata tmpl c1 = Gitea.generateUserdata tmpl c2 ∧
    Gitea.s3UseSSLStr true = gs "true" ∧ Gitea.s3UseSSLStr false = gs "false" := by
  refine ⟨?_, rfl, rfl⟩
  unfold Gitea.generateUserdata
  rw [hHost, hPort, hName, hUser, hPass, hEp, hAk, hSk, hBkt, hSSL]

/-- Witness for C10: two configs that differ in host group, sizing, SSH keys,
GitHub user and tags but agree on the database and S3 fields produce the same
userdata. -/
theorem gitea_userdata_noninterference_witness :
    Gitea.generateUserdata (gs "db=\x7b\x7bDB_NAME\x7d\x7d ssl=\x7b\x7bS3_USE_SSL\x7d\x7d")
        { HostGroup := gs "api", VCPU := 2, RAMGB := 4, Tags := [gs "gitea"],
          DBName := gs "giteadb", S3Bucket := gs "gitea" } =
      Gitea.generateUserdata (gs "db=\x7b\x7bDB_NAME\x7d\x7d ssl=\x7b\x7bS3_USE_SSL\x7d\x7d")
        { HostGroup := gs "other", VCPU := 8, RAMGB := 16, GitHubUser := gs "someone",
          SSHKeys := [gs "ssh-ed25519 AAAA"], Tags := [gs "x", gs "y"],
          DBName := gs "giteadb", S3Bucket := gs "gitea" } :=
  (gitea_userdata_noninterference _ _ _
    rfl rfl rfl rfl rfl rfl rfl rfl rfl rfl).1

/-- C8: the Deployer pattern is replicated identically across packages — for
every client behaviour, host group, hostname and line count, the buildkit and
postgres `List`, `Delete` and `Logs` wrappers are extensionally equal, and
each is exactly the corresponding client call: `List` returns the client's
`GetHostGroupNodes` result for the configured host group, `Delete` returns
the error of `DeleteVM`, and `Logs` returns the log content on success and
the empty string with the error on failure. -/
theorem buildkit_postgres_deployers_extensionally_equal
    (client : SlicerClient) (bcfg : Buildkit.Config) (pcfg : Postgres.Config)
    (hhg : bcfg.HostGroup = pcfg.HostGroup) :
    (Buildkit.Deployer.List ⟨client, bcfg⟩ = Postgres.Deployer.List ⟨client, pcfg⟩) ∧
    (∀ hostname, Buildkit.Deployer.Delete ⟨client, bcfg⟩ hostname =
        Postgres.Deployer.Delete ⟨client, pcfg⟩ hostname) ∧
    (∀ hostname lines, Buildkit.Deployer.Logs ⟨client, bcfg⟩ hostname lines =
        Postgres.Deployer.Logs ⟨client, pcfg⟩ hostname lines) ∧
    (Postgres.Deployer.List ⟨client, pcfg⟩ = client.GetHostGroupNodes pcfg.HostGroup) ∧
    (∀ hostname e, client.DeleteVM pcfg.HostGroup hostname = .error e →
        Postgres.Deployer.Delete ⟨client, pcfg⟩ hostname = some e) ∧
    (∀ hostname r, client.DeleteVM pcfg.HostGroup hostname = .ok r →
        Postgres.Deployer.Delete ⟨client, pcfg⟩ hostname = none) ∧
    (∀ hostname lines resp, client.GetVMLogs hostname lines = .ok resp →
        Postgres.Deployer.Logs ⟨client, pcfg⟩ hostname lines = (resp.Content, none)) ∧
    (∀ hostname lines e, client.GetVMLogs hostname lines = .error e →
        Postgres.Deployer.Logs ⟨client, pcfg⟩ hostname lines = ([], some e)) := by
  refine ⟨?_, ?_, ?_, rfl, ?_, ?_, ?_, ?_⟩
  · unfold Buildkit.Deployer.List Postgres.Deployer.List
    rw [hhg]
  · intro hostname
    unfold Buildkit.Deployer.Delete Postgres.Deployer.Delete
    rw [hhg]
  · intro hostname lines
    rfl
  · intro hostname e h
    unfold Postgres.Deployer.Delete
    rw [h]
  · intro hostname r h
    unfold Postgres.Deployer.Delete
    rw [h]
  · intro hostname lines resp h
    unfold Postgres.Deployer.Logs
    rw [h]
  · intro hostname lines e h
    unfold Postgres.Deployer.Logs
    rw [h]

/-- Witness for C8 at a concrete client and configs sharing the host group. -/
theorem buildkit_postgres_deployers_witness :
    Buildkit.Deployer.List
        ⟨{ GetHostGroupNodes := fun hg => .ok [⟨gs "vm-1", gs "10.0.0.2/24", gs "t1", [hg]⟩]
           DeleteVM := fun _ _ => .ok ()
           GetVMLogs := fun _ _ => .ok ⟨gs "boot ok"⟩
           CreateNode := fun _ _ => .ok ⟨gs "vm-1", gs "10.0.0.2/24", gs "t1"⟩ },
          { HostGroup := gs "api" }⟩ =
      Postgres.Deployer.List
        ⟨{ GetHostGroupNodes := fun hg => .ok [⟨gs "vm-1", gs "10.0.0.2/24", gs "t1", [hg]⟩]
           DeleteVM := fun _ _ => .ok ()
           GetVMLogs := fun _ _ => .ok ⟨gs "boot ok"⟩
           CreateNode := fun _ _ => .ok ⟨gs "vm-1", gs "10.0.0.2/24", gs "t1"⟩ },
          { HostGroup := gs "api" }⟩ :=
  (buildkit_postgres_deployers_extensionally_equal _ _ _ rfl).1

/-- Counterexample for C2: the package-level `List` operation does not filter
by tag — a postgres deployer whose client reports a node tagged only "web"
returns that node even though it does not carry the "postgres" tag. -/
theorem deployer_list_unfiltered_cex :
    Postgres.Deployer.List
        ⟨{ GetHostGroupNodes := fun _ => .ok [⟨gs "vm-1", gs "10.0.0.2/24", gs "t1", [gs "web"]⟩]
           DeleteVM := fun _ _ => .ok ()
           GetVMLogs := fun _ _ => .ok ⟨gs "boot ok"⟩
           CreateNode := fun _ _ => .ok ⟨gs "vm-1", gs "10.0.0.2/24", gs "t1"⟩ },
          { HostGroup := gs "api", Tags := [gs "postgres"] }⟩ =
      .ok [⟨gs "vm-1", gs "10.0.0.2/24", gs "t1", [gs "web"]⟩] ∧
    hasTag [gs "web"] (gs "postgres") = false ∧
    (gs "postgres") ∉ [gs "web"] :=
  ⟨rfl, rfl, by decide⟩

theorem collectRunnerVMs_mem (items : List (Option CrossplaneRunner.VM))
    (vm : CrossplaneRunner.VM) :
    vm ∈ CrossplaneRunner.collectRunnerVMs items ↔
      some vm ∈ items ∧
      CrossplaneRunner.hasTag vm.Spec.ForProvider.Tags (gs "runner") = true := by
  induction items with
  | nil => simp [CrossplaneRunner.collectRunnerVMs]
  | cons it rest ih =>
    rcases it with - | v
    · simpa [CrossplaneRunner.collectRunnerVMs] using ih
    · by_cases ht : CrossplaneRunner.hasTag v.Spec.ForProvider.Tags (gs "runner") = true
      · rw [CrossplaneRunner.collectRunnerVMs, if_pos ht]
        simp only [List.mem_cons, Option.some.injEq, ih]
        constructor
        · rintro (rfl | ⟨hm, htag⟩)
          · exact ⟨Or.inl rfl, ht⟩
          · exact ⟨Or.inr hm, htag⟩
        · rintro ⟨rfl | hm, htag⟩
          · exact Or.inl rfl
          · exact Or.inr ⟨hm, htag⟩
      · rw [CrossplaneRunner.collectRunnerVMs, if_neg ht]
        simp only [List.mem_cons, Option.some.injEq, ih]
        constructor
        · rintro ⟨hm, htag⟩
          exact ⟨Or.inr hm, htag⟩
        · rintro ⟨rfl | hm, htag⟩
          · exact absurd htag ht
          · exact ⟨hm, htag⟩

/-- C2 (amended): the Slicer-SDK deployer packages in the source — buildkit,
postgres, gitea, and the k3s control-plane and agent deployers — expose
`List`, `Delete` and `Logs` operations whose `List` returns all VM records of
the configured host group exactly as the client reports them, without tag
filtering; for these the filtering down to the workload's tag ("buildkit",
"postgres", "k3s-cp", ...) is performed by the magefile's `printNodeList`,
which keeps exactly the records whose tag list contains the tag.  The
crossplane runner deployer is the exception: its `List` filters in-package,
returning exactly the convertible VM resources carrying the "runner" tag
(and the package exposes delete but no logs operation). -/
theorem deployer_list_unfiltered_magefile_filters :
    (∀ d : Postgres.Deployer, d.List = d.client.GetHostGroupNodes d.config.HostGroup) ∧
    (∀ d : K3s.CPDeployer, d.List = d.client.GetHostGroupNodes d.config.HostGroup) ∧
    (∀ d : K3s.AgentDeployer, d.List = d.client.GetHostGroupNodes d.config.HostGroup) ∧
    (∀ d : Buildkit.Deployer, d.List = d.client.GetHostGroupNodes d.config.HostGroup) ∧
    (∀ d : Gitea.Deployer, d.List = d.client.GetHostGroupNodes d.config.HostGroup) ∧
    (∀ (nodes : List SlicerNode) (tag : GoStr),
        ∀ n ∈ filterNodesByTag nodes tag, hasTag n.Tags tag = true) ∧
    (∀ (nodes : List SlicerNode) (tag : GoStr) (n : SlicerNode),
        n ∈ nodes → hasTag n.Tags tag = true → n ∈ filterNodesByTag nodes tag) ∧
    (∀ (d : CrossplaneRunner.Deployer) (items : List (Option CrossplaneRunner.VM)),
        d.client.listVMs d.config.Namespace (gs "crossplane.io/claim-name") =
          .ok items →
        d.List = .ok (CrossplaneRunner.collectRunnerVMs items)) ∧
    (∀ (items : List (Option CrossplaneRunner.VM)) (vm : CrossplaneRunner.VM),
        vm ∈ CrossplaneRunner.collectRunnerVMs items ↔
          some vm ∈ items ∧
          CrossplaneRunner.hasTag vm.Spec.ForProvider.Tags (gs "runner") = true) := by
  refine ⟨fun _ => rfl, fun _ => rfl, fun _ => rfl, fun _ => rfl, fun _ => rfl,
    ?_, ?_, ?_, collectRunnerVMs_mem⟩
  · intro nodes tag n hn
    rw [filterNodesByTag_eq_filter] at hn
    exact (List.mem_filter.mp hn).2
  · intro nodes tag n hn ht
    rw [filterNodesByTag_eq_filter]
    exact List.mem_filter.mpr ⟨hn, ht⟩
  · intro d items h
    unfold CrossplaneRunner.Deployer.List
    rw [h]

/-- Witness for C2 (amended) at a concrete node list: the filter keeps the
tagged node. -/
theorem deployer_list_unfiltered_magefile_filters_witness :
    (⟨gs "vm-2", gs "10.0.0.3/24", gs "t2", [gs "postgres"]⟩ : SlicerNode) ∈
      filterNodesByTag
        [⟨gs "vm-1", gs "10.0.0.2/24", gs "t1", [gs "web"]⟩,
         ⟨gs "vm-2", gs "10.0.0.3/24", gs "t2", [gs "postgres"]⟩]
        (gs "postgres") :=
  deployer_list_unfiltered_magefile_filters.2.2.2.2.2.2.1
    [⟨gs "vm-1", gs "10.0.0.2/24", gs "t1", [gs "web"]⟩,
     ⟨gs "vm-2", gs "10.0.0.3/24", gs "t2", [gs "postgres"]⟩]
    (gs "postgres") _ (by decide) (by decide)

/-! ## Lemmas about password generation -/

theorem alphanumeric_getD_mem (n : Nat) : Postgres.alphanumeric.getD n 'a' ∈ Postgres.alphanumeric := by
  rcases hg : Postgres.alphanumeric.get? n with - | c
  · rw [List.getD_eq_getElem?_getD, ← List.get?_eq_getElem?, hg]
    decide
  · rw [List.getD_eq_getElem?_getD, ← List.get?_eq_getElem?, hg]
    exact List.get?_mem hg

theorem generatePasswordFrom_ok (randInt : Nat → Except GoError Nat) :
    ∀ (n i : Nat), (∀ k, k < n → ∃ v, randInt (i + k) = .ok v) →
      ∃ pwd, Postgres.generatePasswordFrom randInt i n = (pwd, none) ∧ pwd.length = n ∧
        ∀ c ∈ pwd, c ∈ Postgres.alphanumeric := by
  intro n
  induction n with
  | zero => exact fun i _ => ⟨[], rfl, rfl, by simp⟩
  | succ n ih =>
    intro i hok
    obtain ⟨v, hv⟩ := hok 0 (Nat.succ_pos n)
    rw [Nat.add_zero] at hv
    obtain ⟨rest, hrest, hlen, hmem⟩ := ih (i + 1) (fun k hk => by
      have h2 : i + 1 + k = i + (k + 1) := by omega
      rw [h2]
      exact hok (k + 1) (Nat.succ_lt_succ hk))
    refine ⟨Postgres.alphanumeric.getD v 'a' :: rest, ?_, by simp [hlen], ?_⟩
    · rw [Postgres.generatePasswordFrom, hv, hrest]
    · intro c hc
      rcases List.mem_cons.mp hc with rfl | hc
      · exact alphanumeric_getD_mem v
      · exact hmem c hc

theorem generatePasswordFrom_err (randInt : Nat → Except GoError Nat) :
    ∀ (n k i : Nat) (e : GoError), k < n → randInt (i + k) = .error e →
      (∀ j, j < k → ∃ v, randInt (i + j) = .ok v) →
      Postgres.generatePasswordFrom randInt i n = ([], some (Postgres.wrapRandErr e)) := by
  intro n
  induction n with
  | zero => exact fun k i e hk => absurd hk (Nat.not_lt_zero k)
  | succ n ih =>
    intro k i e hk herr hok
    match k with
    | 0 =>
      rw [Nat.add_zero] at herr
      rw [Postgres.generatePasswordFrom, herr]
    | k + 1 =>
      obtain ⟨v, hv⟩ := hok 0 (Nat.succ_pos k)
      rw [Nat.add_zero] at hv
      have hrec := ih k (i + 1) e (Nat.lt_of_succ_lt_succ hk)
        (by
          have h2 : i + 1 + k = i + (k + 1) := by omega
          rw [h2]
          exact herr)
        (fun j hj => by
          have h2 : i + 1 + j = i + (j + 1) := by omega
          rw [h2]
          exact hok (j + 1) (Nat.succ_lt_succ hj))
      rw [Postgres.generatePasswordFrom, hv, hrec]

theorem generatePasswordFrom_err_exists (randInt : Nat → Except GoError Nat) :
    ∀ (n i : Nat), (∃ k, k < n ∧ ∃ e, randInt (i + k) = .error e) →
      ∃ e2, Postgres.generatePasswordFrom randInt i n = ([], some (Postgres.wrapRandErr e2)) := by
  intro n
  induction n with
  | zero =>
    rintro i ⟨k, hk, -⟩
    omega
  | succ n ih =>
    rintro i ⟨k, hk, e, he⟩
    rcases hv : randInt i with e0 | v
    · exact ⟨e0, by rw [Postgres.generatePasswordFrom, hv]⟩
    · have hk0 : k ≠ 0 := by
        rintro rfl
        rw [Nat.add_zero] at he
        rw [hv] at he
        cases he
      obtain ⟨e2, he2⟩ := ih (i + 1) ⟨k - 1, by omega, e, by
        have h2 : i + 1 + (k - 1) = i + k := by omega
        rw [h2]
        exact he⟩
      exact ⟨e2, by rw [Postgres.generatePasswordFrom, hv, he2]⟩

theorem generatePasswordFrom_none_length (randInt : Nat → Except GoError Nat) :
    ∀ (n i : Nat) (pwd : GoStr),
      Postgres.generatePasswordFrom randInt i n = (pwd, none) → pwd.length = n := by
  intro n
  induction n with
  | zero =>
    intro i pwd h
    rw [Postgres.generatePasswordFrom] at h
    cases h
    rfl
  | succ n ih =>
    intro i pwd h
    rw [Postgres.generatePasswordFrom] at h
    rcases hv : randInt i with e | v <;> rw [hv] at h
    · cases h
    · rcases hr : Postgres.generatePasswordFrom randInt (i + 1) n with ⟨rest, - | e⟩ <;>
        rw [hr] at h
      · cases h
        simp [ih (i + 1) rest hr]
      · cases h

/-- C5: for every length `n`, when the randomness source succeeds (within
`rand.Int`'s contract of staying below the alphabet size) at every position,
`GeneratePassword` returns a string of exactly `n` characters, each drawn
from the fixed 62-character alphanumeric alphabet; when the source first
fails at any position, it returns the empty string and the wrapped error. -/
theorem generatePassword_spec (randInt : Nat → Except GoError Nat) (n : Nat) :
    Postgres.alphanumeric.length = 62 ∧
    ((∀ i, i < n → ∃ v, randInt i = .ok v ∧ v < Postgres.alphanumeric.length) →
      ∃ pwd, Postgres.GeneratePassword randInt n = (pwd, none) ∧ pwd.length = n ∧
        ∀ c ∈ pwd, c ∈ Postgres.alphanumeric) ∧
    (∀ k e, k < n → randInt k = .error e → (∀ j, j < k → ∃ v, randInt j = .ok v) →
      Postgres.GeneratePassword randInt n = ([], some (Postgres.wrapRandErr e))) ∧
    ((∃ k, k < n ∧ ∃ e, randInt k = .error e) →
      ∃ e2, Postgres.GeneratePassword randInt n = ([], some (Postgres.wrapRandErr e2))) := by
  refine ⟨rfl, ?_, ?_, ?_⟩
  · intro hok
    exact generatePasswordFrom_ok randInt n 0 (fun k hk => by
      obtain ⟨v, hv, -⟩ := hok k (by simpa using hk)
      exact ⟨v, by simpa using hv⟩)
  · intro k e hk herr hok
    exact generatePasswordFrom_err randInt n k 0 e hk (by simpa using herr)
      (fun j hj => by simpa using hok j hj)
  · rintro ⟨k, hk, e, he⟩
    exact generatePasswordFrom_err_exists randInt n 0 ⟨k, hk, e, by simpa using he⟩

/-- Witness for C5: a conforming randomness source yields a 6-character
alphanumeric password. -/
theorem generatePassword_spec_witness :
    ∃ pwd, Postgres.GeneratePassword (fun i => Except.ok (i % 62)) 6 = (pwd, none) ∧
      pwd.length = 6 ∧ ∀ c ∈ pwd, c ∈ Postgres.alphanumeric :=
  (generatePassword_spec (fun i => Except.ok (i % 62)) 6).2.1
    (fun i _ => ⟨i % 62, rfl, by
      have : i % 62 < 62 := Nat.mod_lt i (by decide)
      simpa using this⟩)

/-- C6: on every successful postgres `Deploy`, the credentials in the
returned `DeployResponse` are exactly the values substituted into the
userdata sent with the `CreateNode` request; the DB name and user fall back
to "app" when the config fields are empty; the password is `Config.DBPass`
when non-empty and otherwise a freshly generated 24-character password. -/
theorem postgres_deploy_credentials (d : Postgres.Deployer)
    (randInt : Nat → Except GoError Nat) (tmpl : GoStr) (dr : Postgres.DeployResponse)
    (h : d.Deploy randInt tmpl = .ok dr) :
    dr.Credentials.DBName =
      (if d.config.DBName = [] then Postgres.DefaultDBName else d.config.DBName) ∧
    dr.Credentials.DBUser =
      (if d.config.DBUser = [] then Postgres.DefaultDBUser else d.config.DBUser) ∧
    (d.config.DBPass ≠ [] → dr.Credentials.DBPass = d.config.DBPass) ∧
    (d.config.DBPass = [] →
      Postgres.GeneratePassword randInt 24 = (dr.Credentials.DBPass, none) ∧
      dr.Credentials.DBPass.length = 24) ∧
    (∃ req : SlicerCreateNodeRequest,
      d.client.CreateNode d.config.HostGroup req = .ok dr.resp ∧
      req.Userdata = Postgres.generateUserdata tmpl
        dr.Credentials.DBName dr.Credentials.DBUser dr.Credentials.DBPass) := by
  unfold Postgres.Deployer.Deploy at h
  by_cases hp : d.config.DBPass = [] <;> simp only [hp, if_true, if_false] at h
  · split at h
    · cases h
    · rename_i password hgen
      split at h
      · cases h
      · rename_i resp hcn
        cases h
        refine ⟨rfl, rfl, fun hne => absurd hp hne, ?_, _, hcn, rfl⟩
        intro hpe
        exact ⟨hgen, generatePasswordFrom_none_length randInt 24 0 password hgen⟩
  · split at h
    · cases h
    · rename_i resp hcn
      cases h
      exact ⟨rfl, rfl, fun _ => rfl, fun hp2 => absurd hp2 hp, _, hcn, rfl⟩

/-- Witness for C6: a deploy with a preset password returns exactly those
credentials. -/
theorem postgres_deploy_credentials_witness :
    ((⟨gs "pgdb", gs "pguser", gs "sekret"⟩ : Postgres.Credentials).DBName =
        (if (gs "pgdb" : GoStr) = [] then Postgres.DefaultDBName else gs "pgdb")) ∧
      ((⟨gs "pgdb", gs "pguser", gs "sekret"⟩ : Postgres.Credentials).DBUser =
        (if (gs "pguser" : GoStr) = [] then Postgres.DefaultDBUser else gs "pguser")) := by
  have h := postgres_deploy_credentials
    ⟨{ GetHostGroupNodes := fun _ => .ok []
       DeleteVM := fun _ _ => .ok ()
       GetVMLogs := fun _ _ => .ok ⟨gs ""⟩
       CreateNode := fun _ _ => .ok ⟨gs "vm-pg", gs "10.0.0.9/24", gs "t9"⟩ },
      { HostGroup := gs "api", DBName := gs "pgdb", DBUser := gs "pguser",
        DBPass := gs "sekret" }⟩
    (fun _ => Except.ok 0) (gs "tmpl")
    ⟨⟨gs "vm-pg", gs "10.0.0.9/24", gs "t9"⟩, ⟨gs "pgdb", gs "pguser", gs "sekret"⟩⟩ rfl
  exact ⟨h.1, h.2.1⟩

/-! ## Lemmas about the Helm install operations -/

theorem installAutoscaler_trace_eq (q : K3s.Provisioner) (hcfg : K3s.HelmConfig)
    (p : CertManager.Provisioner) (cfg : CertManager.Config) (w : HelmWorld) :
    (q.InstallAutoscaler hcfg w).1 = (p.Install cfg w).1 := by
  obtain ⟨ncr, di, hr, wrf, iac, hist, loc, load, up, inst⟩ := w
  rcases ncr with e | - ; · rfl
  rcases di with e | - ; · rfl
  cases hr <;> cases wrf <;> cases iac <;> cases loc <;> cases load <;>
    rcases hist with e | (- | ⟨r, rs⟩) <;> cases up <;> cases inst <;>
    first
    | rfl
    | simp [K3s.Provisioner.InstallAutoscaler, CertManager.Provisioner.Install,
        releaseExists]

theorem certManagerInstall_dichotomy (p : CertManager.Provisioner)
    (cfg : CertManager.Config) (w : HelmWorld) :
    (HelmEvent.upgradeRun ∈ (p.Install cfg w).1 ↔
      helmPreOk w = true ∧ releaseExists w = true) ∧
    (HelmEvent.installRun ∈ (p.Install cfg w).1 ↔
      helmPreOk w = true ∧ releaseExists w = false) ∧
    (HelmEvent.upgradeRun ∈ (p.Install cfg w).1 →
      (p.Install cfg w).1 =
        [.repoAdd, .history, .locateChart, .loadChart, .upgradeRun]) ∧
    (HelmEvent.installRun ∈ (p.Install cfg w).1 →
      (p.Install cfg w).1 =
        [.repoAdd, .history, .locateChart, .loadChart, .installRun]) := by
  obtain ⟨ncr, di, hr, wrf, iac, hist, loc, load, up, inst⟩ := w
  rcases ncr with e | -
  · simp [CertManager.Provisioner.Install, helmPreOk]
  rcases di with e | -
  · simp [CertManager.Provisioner.Install, helmPreOk]
  cases hr <;> cases wrf <;> cases iac <;> cases loc <;> cases load <;>
    rcases hist with e | (- | ⟨r, rs⟩) <;> cases up <;> cases inst <;>
    simp [CertManager.Provisioner.Install, helmPreOk, releaseExists]

/-- C7: Helm install-or-upgrade dichotomy — cert-manager `Install` and k3s
`InstallAutoscaler` each perform the repo-add / history / locate-chart /
load-chart sequence and then exactly one of Helm upgrade or fresh install: an
upgrade exactly when the release-history lookup returned no error and a
non-empty release list (and all preceding steps succeeded), a fresh install
exactly otherwise; never both, and any upgrade or install happens only after
the chart was located and loaded. -/
theorem helm_install_or_upgrade_dichotomy
    (p : CertManager.Provisioner) (cfg : CertManager.Config)
    (q : K3s.Provisioner) (hcfg : K3s.HelmConfig) (w : HelmWorld) :
    ((HelmEvent.upgradeRun ∈ (p.Install cfg w).1 ↔
        helmPreOk w = true ∧ releaseExists w = true) ∧
     (HelmEvent.installRun ∈ (p.Install cfg w).1 ↔
        helmPreOk w = true ∧ releaseExists w = false) ∧
     ¬(HelmEvent.upgradeRun ∈ (p.Install cfg w).1 ∧
        HelmEvent.installRun ∈ (p.Install cfg w).1) ∧
     (HelmEvent.upgradeRun ∈ (p.Install cfg w).1 →
        (p.Install cfg w).1 =
          [.repoAdd, .history, .locateChart, .loadChart, .upgradeRun]) ∧
     (HelmEvent.installRun ∈ (p.Install cfg w).1 →
        (p.Install cfg w).1 =
          [.repoAdd, .history, .locateChart, .loadChart, .installRun])) ∧
    ((HelmEvent.upgradeRun ∈ (q.InstallAutoscaler hcfg w).1 ↔
        helmPreOk w = true ∧ releaseExists w = true) ∧
     (HelmEvent.installRun ∈ (q.InstallAutoscaler hcfg w).1 ↔
        helmPreOk w = true ∧ releaseExists w = false) ∧
     ¬(HelmEvent.upgradeRun ∈ (q.InstallAutoscaler hcfg w).1 ∧
        HelmEvent.installRun ∈ (q.InstallAutoscaler hcfg w).1) ∧
     (HelmEvent.upgradeRun ∈ (q.InstallAutoscaler hcfg w).1 →
        (q.InstallAutoscaler hcfg w).1 =
          [.repoAdd, .history, .locateChart, .loadChart, .upgradeRun]) ∧
     (HelmEvent.installRun ∈ (q.InstallAutoscaler hcfg w).1 →
        (q.InstallAutoscaler hcfg w).1 =
          [.repoAdd, .history, .locateChart, .loadChart, .installRun])) := by
  obtain ⟨h1, h2, h3, h4⟩ := certManagerInstall_dichotomy p cfg w
  have ht := installAutoscaler_trace_eq q hcfg p cfg w
  have hnb : ¬(HelmEvent.upgradeRun ∈ (p.Install cfg w).1 ∧
      HelmEvent.installRun ∈ (p.Install cfg w).1) := by
    rintro ⟨hu, hi⟩
    rw [h3 hu] at hi
    simp at hi
  refine ⟨⟨h1, h2, hnb, h3, h4⟩, ?_⟩
  rw [ht]
  exact ⟨h1, h2, hnb, h3, h4⟩

/-- Witness for C7: with every Helm call succeeding and one existing release,
the cert-manager install performs the upgrade path. -/
theorem helm_install_or_upgrade_dichotomy_witness :
    HelmEvent.upgradeRun ∈
      ((⟨gs "kubeconfig"⟩ : CertManager.Provisioner).Install {}
        { newChartRepo := .ok (), downloadIndex := .ok (), hasRepo := true,
          writeRepoFile := .ok (), initActionConfig := .ok (),
          historyRun := .ok [⟨gs "cert-manager"⟩], locateChart := .ok (gs "p"),
          loadChart := .ok ⟨gs "p"⟩, upgradeRun := .ok (), installRun := .ok () }).1 :=
  ((helm_install_or_upgrade_dichotomy ⟨gs "kubeconfig"⟩ {} ⟨gs "kubeconfig"⟩ {}
      { newChartRepo := .ok (), downloadIndex := .ok (), hasRepo := true,
        writeRepoFile := .ok (), initActionConfig := .ok (),
        historyRun := .ok [⟨gs "cert-manager"⟩], locateChart := .ok (gs "p"),
        loadChart := .ok ⟨gs "p"⟩, upgradeRun := .ok (), installRun := .ok () }).1.1).mpr
    ⟨rfl, rfl⟩

/-! ## Lemmas about gatewayFromCIDR -/

theorem mem_of_getElemOpt {l : GoStr} {c : Char} {i : Nat} (h : l[i]? = some c) : c ∈ l := by
  obtain ⟨hi, he⟩ := List.getElem?_eq_some.mp h
  exact he ▸ List.getElem_mem hi

theorem lastDotBefore_eq_some (s : GoStr) :
    ∀ (i j : Nat), j < i → s[j]? = some '.' →
      (∀ k, j < k → k < i → s[k]? ≠ some '.') →
      lastDotBefore s i = some j := by
  intro i
  induction i with
  | zero =>
    intro j hj hdot hno
    omega
  | succ i ih =>
    intro j hj hdot hno
    by_cases hji : j = i
    · subst hji
      rw [lastDotBefore, if_pos hdot]
    · have hlt : j < i := by omega
      have hne : ¬ s[i]? = some '.' := hno i hlt (Nat.lt_succ_self i)
      rw [lastDotBefore, if_neg hne]
      exact ih j hlt hdot (fun k hk1 hk2 => hno k hk1 (by omega))

theorem findSlashDot_eq_found (s : GoStr) :
    ∀ (n i : Nat), i < n → s[i]? = some '/' →
      (∀ k, i < k → k < n → s[k]? ≠ some '/') →
      findSlashDot s n =
        (match lastDotBefore s i with
          | some j => some (i, j)
          | none => findSlashDot s i) := by
  intro n
  induction n with
  | zero =>
    intro i hi hslash hno
    omega
  | succ n ih =>
    intro i hi hslash hno
    by_cases hin : i = n
    · subst hin
      rw [findSlashDot, if_pos hslash]
    · have hlt : i < n := by omega
      have hne : ¬ s[n]? = some '/' := hno n hlt (Nat.lt_succ_self n)
      rw [findSlashDot, if_neg hne]
      exact ih i hlt hslash (fun k hk1 hk2 => hno k hk1 (by omega))

theorem findSlashDot_eq_none (s : GoStr) :
    ∀ n, (∀ k, k < n → s[k]? ≠ some '/') → findSlashDot s n = none := by
  intro n
  induction n with
  | zero => intro hno; rfl
  | succ n ih =>
    intro hno
    have hne : ¬ s[n]? = some '/' := hno n (Nat.lt_succ_self n)
    rw [findSlashDot, if_neg hne]
    exact ih (fun k hk => hno k (by omega))

/-- C4: CIDR-to-gateway arithmetic — for every string of the form
`p ++ "." ++ o ++ "/" ++ m` whose last octet `o` contains no dot or slash and
whose mask `m` contains no slash (in particular every "a.b.c.0/m" network
CIDR), `gatewayFromCIDR` replaces the text between the last dot and the slash
by "1", leaving the leading octets and the mask unchanged; a string with no
slash is returned unchanged; and `GenerateCPYAML` embeds the gateway value in
the generated YAML. -/
theorem gatewayFromCIDR_spec :
    (∀ p o m : GoStr, '.' ∉ o → '/' ∉ o → '/' ∉ m →
        gatewayFromCIDR (p ++ '.' :: (o ++ '/' :: m)) = p ++ '.' :: '1' :: '/' :: m) ∧
    (∀ s : GoStr, '/' ∉ s → gatewayFromCIDR s = s) ∧
    (∀ (config : K3s.CPConfig) (githubUser : GoStr),
        gatewayFromCIDR config.CIDR <:+: K3s.GenerateCPYAML config githubUser) := by
  refine ⟨?_, ?_, ?_⟩
  · intro p o m hdo hso hsm
    set s := p ++ '.' :: (o ++ '/' :: m) with hs
    have hgrp1 : s = (p ++ '.' :: o) ++ '/' :: m := by simp [hs]
    have hgrp2 : s = (p ++ ['.']) ++ (o ++ '/' :: m) := by simp [hs]
    have hLlen : (p ++ '.' :: o).length = p.length + o.length + 1 := by
      simp [List.length_append]
      omega
    have hslash : s[(p ++ '.' :: o).length]? = some '/' := by
      rw [hgrp1, List.getElem?_append_right (Nat.le_refl _)]
      simp
    have hnosl : ∀ k, (p ++ '.' :: o).length < k → k < s.length → s[k]? ≠ some '/' := by
      intro k hk1 hk2 hc
      rw [hgrp1, List.getElem?_append_right (Nat.le_of_lt hk1)] at hc
      have ht : k - (p ++ '.' :: o).length = (k - (p ++ '.' :: o).length - 1) + 1 := by omega
      rw [ht, List.getElem?_cons_succ] at hc
      exact hsm (mem_of_getElemOpt hc)
    have hdot : s[p.length]? = some '.' := by
      rw [hs, List.getElem?_append_right (Nat.le_refl _)]
      simp
    have hnodot : ∀ k, p.length < k → k < (p ++ '.' :: o).length → s[k]? ≠ some '.' := by
      intro k hk1 hk2 hc
      rw [hs, List.getElem?_append_right (Nat.le_of_lt hk1)] at hc
      have ht : k - p.length = (k - p.length - 1) + 1 := by omega
      rw [ht, List.getElem?_cons_succ] at hc
      have htlt : k - p.length - 1 < o.length := by omega
      rw [List.getElem?_append, if_pos htlt] at hc
      exact hdo (mem_of_getElemOpt hc)
    have hi0lt : (p ++ '.' :: o).length < s.length := by
      rw [hgrp1]
      simp
    have hj0lt : p.length < (p ++ '.' :: o).length := by
      simp [hLlen]
      omega
    have hld : lastDotBefore s (p ++ '.' :: o).length = some p.length :=
      lastDotBefore_eq_some s (p ++ '.' :: o).length p.length hj0lt hdot hnodot
    have hfind : findSlashDot s s.length = some ((p ++ '.' :: o).length, p.length) := by
      rw [findSlashDot_eq_found s s.length (p ++ '.' :: o).length hi0lt hslash hnosl, hld]
    have htake : s.take (p.length + 1) = p ++ ['.'] := by
      rw [hgrp2]
      exact List.take_left' (by simp)
    have hdrop : s.drop (p ++ '.' :: o).length = '/' :: m := by
      rw [hgrp1]
      exact List.drop_left' rfl
    have h1 : gs "1" = ['1'] := rfl
    rw [gatewayFromCIDR, hfind]
    show s.take (p.length + 1) ++ gs "1" ++ s.drop (p ++ '.' :: o).length =
      p ++ '.' :: '1' :: '/' :: m
    rw [htake, hdrop, h1]
    simp
  · intro s hns
    have hnone : findSlashDot s s.length = none :=
      findSlashDot_eq_none s s.length (fun k hk hc => hns (mem_of_getElemOpt hc))
    rw [gatewayFromCIDR, hnone]
  · intro config githubUser
    refine ⟨gs "config:\n  host_groups:\n  - name: " ++ config.HostGroup ++
      gs "\n    storage: image\n    storage_size: " ++ config.StorageSize ++
      gs "\n    count: " ++ goIntStr config.Count ++
      gs "\n    vcpu: " ++ goIntStr config.VCPU ++
      gs "\n    ram_gb: " ++ goIntStr config.RAMGB ++
      gs "\n    network:\n      bridge: br" ++ config.HostGroup ++
      gs "0\n      tap_prefix: " ++ config.HostGroup ++
      gs "tap\n      gateway: ",
      gs "\n\n  github_user: " ++ githubUser ++
      gs "\n\n  image: \"ghcr.io/openfaasltd/slicer-systemd:5.10.240-x86_64-latest\"\n\n  hypervisor: firecracker\n\n  api:\n    port: 8080\n    bind_address: \"127.0.0.1\"\n", ?_⟩
    simp [K3s.GenerateCPYAML, List.append_assoc]

/-- Witness for C4 at the default control-plane CIDR. -/
theorem gatewayFromCIDR_spec_witness :
    gatewayFromCIDR (gs "192.168.137.0/24") = gs "192.168.137.1/24" := by
  have h := gatewayFromCIDR_spec.1 (gs "192.168.137") (gs "0") (gs "24")
    (by decide) (by decide) (by decide)
  have he : gs "192.168.137.0/24" = gs "192.168.137" ++ '.' :: (gs "0" ++ '/' :: gs "24") := by
    decide
  rw [he, h]
  decide

end SlicerSpec
